import Mathlib

/-!
Slack file-upload bot: event dispatch and file retrieval.

A shallow embedding of `internal/bot/bot.go` together with the parts of the Go
standard library that the bot calls to compute where a file is stored
(`strings.ReplaceAll`, `filepath.Join`, `filepath.Clean` on a Unix system).

Go strings are byte strings.  They are modelled as `List Char`; the only bytes
the path code looks at are the ASCII bytes `/` and `.`, which never occur inside
a multi-byte UTF-8 sequence, so working on characters and working on bytes agree.
-/

namespace Slackbot

/-- Go `string`. -/
abbrev Str := List Char

/-- Content of a file or of an HTTP response body. -/
abbrev Bytes := List Nat

/-! ## Standard library: `strings.ReplaceAll`, `filepath.Clean`, `filepath.Join` -/

/-- Go `strings.ReplaceAll(s, old, new)` for one-byte `old` and `new`: every occurrence
of `old` is replaced, everything else is kept. -/
def ReplaceAll (s : Str) (old new : Char) : Str :=
  s.map (fun c => if c = old then new else c)

/-- Go `os.IsPathSeparator` on Unix. -/
def IsPathSeparator (c : Char) : Bool := c == '/'

/-- The output buffer of `filepath.Clean` and the index `dotdot` below which `..`
must not backtrack.  `out` holds the `w` bytes written so far. -/
structure CleanState where
  out : Str
  dotdot : Nat
deriving DecidableEq, Repr

/-- The backtracking loop of `filepath.Clean`, entered after `out.w--` with the new
`w`: `for out.w > dotdot && !os.IsPathSeparator(out.index(out.w)) { out.w-- }`.
Returns the final `w`. -/
def backtrack (out : Str) (dotdot : Nat) : Nat → Nat
  | 0 => 0
  | w + 1 =>
    if w + 1 > dotdot && !(IsPathSeparator (out.getD (w + 1) '/')) then
      backtrack out dotdot w
    else w + 1

/-- One iteration of the main loop `for r < n { switch ... }` of `filepath.Clean`,
entered with `path[r:] = c :: tl`.  Returns the new `path[r:]` and the new buffer. -/
def cleanStep (rooted : Bool) (c : Char) (tl : Str) (st : CleanState) : Str × CleanState :=
  if IsPathSeparator c then
    -- empty path element
    (tl, st)
  else if c = '.' ∧ (tl = [] ∨ IsPathSeparator (tl.headD '/')) then
    -- . element
    (tl, st)
  else if c = '.' ∧ tl.headD '/' = '.' ∧
      (tl.tail = [] ∨ IsPathSeparator (tl.tail.headD '/')) then
    -- .. element: remove to last separator
    if st.out.length > st.dotdot then
      -- can backtrack
      (tl.tail,
        { st with out := st.out.take (backtrack st.out st.dotdot (st.out.length - 1)) })
    else if !rooted then
      -- cannot backtrack, but not rooted, so append .. element
      let out1 := if st.out.length > 0 then st.out ++ ['/'] else st.out
      let out2 := out1 ++ ['.', '.']
      (tl.tail, { out := out2, dotdot := out2.length })
    else
      (tl.tail, st)
  else
    -- real path element: add slash if needed, then copy the element
    let out1 :=
      if (rooted && st.out.length != 1) || (!rooted && st.out.length != 0) then
        st.out ++ ['/']
      else st.out
    let elem := (c :: tl).takeWhile (fun x => !(IsPathSeparator x))
    ((c :: tl).dropWhile (fun x => !(IsPathSeparator x)), { st with out := out1 ++ elem })

/-- The main loop of `filepath.Clean`.  `rest` is `path[r:]`; every iteration
consumes at least one byte of it, so `rest.length` iterations always suffice
(`cleanLoop_fuel`). -/
def cleanLoop (rooted : Bool) : Nat → Str → CleanState → CleanState
  | 0, _, st => st
  | _ + 1, [], st => st
  | fuel + 1, c :: tl, st =>
    cleanLoop rooted fuel (cleanStep rooted c tl st).1 (cleanStep rooted c tl st).2

/-- Go `filepath.Clean` on Unix (no volume name, separator `/`). -/
def Clean (path : Str) : Str :=
  if path = [] then ['.']
  else
    let rooted := IsPathSeparator (path.headD '.')
    let init : CleanState :=
      if rooted then { out := ['/'], dotdot := 1 } else { out := [], dotdot := 0 }
    let rest := if rooted then path.tail else path
    let st := cleanLoop rooted rest.length rest init
    -- Turn empty string into "."
    if st.out.length = 0 then ['.'] else st.out

/-- Go `filepath.Join(a, b)` on Unix: the first non-empty element and everything after
it are joined with `/` and cleaned; if both are empty the result is empty. -/
def Join (a b : Str) : Str :=
  if a ≠ [] then Clean (a ++ '/' :: b)
  else if b ≠ [] then Clean b
  else []

/-- The destination path computed at the top of `downloadFile`:
`filepath.Join(b.uploadDir, strings.ReplaceAll(file.Name, "/", "_"))`. -/
def destPath (uploadDir name : Str) : Str :=
  Join uploadDir (ReplaceAll name '/' '_')

/-! ## Data model: the fields of the slack-go types that the bot reads -/

/-- Type `slack.File`. -/
structure File where
  ID : Str
  Name : Str
deriving DecidableEq, Repr

/-- Type `slack.MessageEvent`. -/
structure MessageEvent where
  User : Str
  Channel : Str
  Files : List File
deriving DecidableEq, Repr

/-- Dynamic type of `event.InnerEvent.Data`: a `*slack.MessageEvent` or anything else. -/
inductive InnerEventData where
  | MessageEvent (ev : MessageEvent)
  | Other
deriving DecidableEq, Repr

/-- Type `slack.EventsAPIEvent`; `Type_` is its field `Type`. -/
structure EventsAPIEvent where
  Type_ : Str
  InnerEvent : InnerEventData
deriving DecidableEq, Repr

/-- Type `slack.SlashCommand`. -/
structure SlashCommand where
  Command : Str
  ChannelID : Str
deriving DecidableEq, Repr

/-- Type `socketmode.EventType`; `Other` stands for the kinds `handleEvents` has no case for. -/
inductive EventType where
  | Connecting
  | ConnectionError
  | Connected
  | EventsAPI
  | SlashCommand
  | Other
deriving DecidableEq, Repr

/-- Dynamic type of `evt.Data`. -/
inductive EventData where
  | EventsAPIEvent (e : EventsAPIEvent)
  | SlashCommand (cmd : SlashCommand)
  | Other
deriving DecidableEq, Repr

/-- Type `socketmode.Request`, the acknowledgement handle of an envelope. -/
structure Request where
  EnvelopeID : Str
deriving DecidableEq, Repr

/-- Type `socketmode.Event`, one envelope of the inbound stream; `Type_` is its field
`Type`.  `Request` is the handle that socketmode attaches to the envelopes that need an
acknowledgement; the bot reads it for those kinds only. -/
structure Event where
  Type_ : EventType
  Data : EventData
  Request : Request
deriving DecidableEq, Repr

/-- Type `http.Response`: status code and body. -/
structure Response where
  StatusCode : Nat
  Body : Bytes
deriving DecidableEq, Repr

/-! ## Effects and the outside world -/

/-- The lines the bot writes with `log.Println` and `log.Printf`. -/
inductive LogLine where
  | Connecting
  | ConnectionFailed
  | Connected
  | Ignored (evt : Event)
  | EventReceived (type_ : Str)
  | ErrorGettingBotInfo (err : Str)
  | ErrorDownloadingFile (err : Str)
  | FileDownloaded (filePath : Str)
deriving DecidableEq, Repr

/-- The calls the bot makes to its collaborators, in the order it makes them. -/
inductive Effect where
  | Log (line : LogLine)
  | Ack (req : Request)
  | GetBotInfo
  | GetFileInfo (fileID : Str)
  | HttpGet (url : Str)
  | Create (filePath : Str)
  | Write (filePath : Str) (data : Bytes)
  | CloseFile (filePath : Str)
  | CloseBody (url : Str)
  | PostMessage (channelID : Str) (text : Str)
deriving DecidableEq, Repr

/-- The state outside the bot: the files on disk (path and content, one entry per
path) and the calls made so far. -/
structure World where
  fs : List (Str × Bytes)
  trace : List Effect
deriving DecidableEq, Repr

/-- Record one more call. -/
def World.emit (w : World) (e : Effect) : World :=
  { w with trace := w.trace ++ [e] }

/-- The file at `filePath` now has content `data`: an existing entry is replaced. -/
def fsWrite (fs : List (Str × Bytes)) (filePath : Str) (data : Bytes) : List (Str × Bytes) :=
  fs.filter (fun entry => entry.1 ≠ filePath) ++ [(filePath, data)]

/-- Content of the file at `filePath`, if there is one. -/
def fsRead (fs : List (Str × Bytes)) (filePath : Str) : Option Bytes :=
  (fs.find? (fun entry => entry.1 = filePath)).map Prod.snd

/-- The collaborators: the slack-go client, `http.Get`, `os.Create` and `io.Copy`.
Each answer may depend on everything that happened before (the world at the time of
the call).  An error is given by its `Error()` text.  `Copy` answers `none` when
`io.Copy` wrote the whole body, and otherwise the number of bytes written before the
error and the error.  `EventTypeMessage` is the constant `slack.EventTypeMessage` of
the library. -/
structure Env where
  EventTypeMessage : Str
  GetBotInfo : World → Except Str Str
  GetFileInfo : World → Str → Except Str Str
  Get : World → Str → Except Str Response
  Create : World → Str → Option Str
  Copy : World → Str → Bytes → Option (Nat × Str)

/-- The `Bot` struct: its clients (the collaborators) and `uploadDir`. -/
structure Bot where
  client : Env
  uploadDir : Str

/-- The calls made between world `w` and a later world `w1`. -/
def effectsSince (w w1 : World) : List Effect :=
  w1.trace.drop w.trace.length

/-- The channel messages among some calls, as (channel, text), in order. -/
def posts (es : List Effect) : List (Str × Str) :=
  es.filterMap (fun e => match e with
    | .PostMessage channelID text => some (channelID, text)
    | _ => none)

/-- The acknowledgements among some calls, in order. -/
def acks (es : List Effect) : List Request :=
  es.filterMap (fun e => match e with
    | .Ack req => some req
    | _ => none)

/-- Calls that look up file metadata, fetch, create or write a file, or post a message. -/
def Effect.touchesFilesOrChannel : Effect → Bool
  | .GetFileInfo _ => true
  | .HttpGet _ => true
  | .Create _ => true
  | .Write _ _ => true
  | .PostMessage _ _ => true
  | _ => false

/-! ## `internal/bot/bot.go` -/

/-- Method `downloadFile`: returns the error (`none` for `nil`) and the world afterwards.
The wrapped errors are those of `fmt.Errorf("...: %w", err)`.  The deferred
`out.Close()` and `resp.Body.Close()` run last, in that order. -/
def downloadFile (b : Bot) (file : File) (w : World) : Option Str × World :=
  -- Create a safe filename
  let safeFilename := ReplaceAll file.Name '/' '_'
  let filePath := Join b.uploadDir safeFilename
  -- Get file info
  match b.client.GetFileInfo w file.ID with
  | .error err => (some ("error getting file info: ".toList ++ err), w.emit (.GetFileInfo file.ID))
  | .ok url =>
    let w1 := w.emit (.GetFileInfo file.ID)
    -- Download the file
    match b.client.Get w1 url with
    | .error err => (some ("error downloading file: ".toList ++ err), w1.emit (.HttpGet url))
    | .ok resp =>
      let w2 := w1.emit (.HttpGet url)
      -- Create the file
      match b.client.Create w2 filePath with
      | some err =>
        (some ("error creating file: ".toList ++ err),
          (w2.emit (.Create filePath)).emit (.CloseBody url))
      | none =>
        let w3 : World := { fs := fsWrite w2.fs filePath [], trace := w2.trace ++ [.Create filePath] }
        -- Write the file content
        match b.client.Copy w3 filePath resp.Body with
        | some (n, err) =>
          let w4 : World :=
            { fs := fsWrite w3.fs filePath (resp.Body.take n),
              trace := w3.trace ++ [.Write filePath (resp.Body.take n)] }
          (some ("error writing file: ".toList ++ err),
            (w4.emit (.CloseFile filePath)).emit (.CloseBody url))
        | none =>
          let w4 : World :=
            { fs := fsWrite w3.fs filePath resp.Body,
              trace := w3.trace ++ [.Write filePath resp.Body] }
          (none,
            ((w4.emit (.Log (.FileDownloaded filePath))).emit (.CloseFile filePath)).emit
              (.CloseBody url))

/-- Text of the confirmation message:
`fmt.Sprintf("File %s has been successfully downloaded and saved.", file.Name)` with
the name between backticks. -/
def successText (name : Str) : Str :=
  "File `".toList ++ name ++ "` has been successfully downloaded and saved.".toList

/-- Text of the failure message: `fmt.Sprintf("Error downloading file: %v", err)`. -/
def failureText (err : Str) : Str :=
  "Error downloading file: ".toList ++ err

/-- Body of the loop `for _, file := range ev.Files` of `handleFileUpload`. -/
def handleFileUploadBody (b : Bot) (channel : Str) (file : File) (w : World) : World :=
  -- Download the file
  match downloadFile b file w with
  | (some err, w1) =>
    (w1.emit (.Log (.ErrorDownloadingFile err))).emit (.PostMessage channel (failureText err))
  | (none, w1) =>
    -- Send confirmation message
    w1.emit (.PostMessage channel (successText file.Name))

/-- The loop of `handleFileUpload` over the files still to process. -/
def handleFileUploadFrom (b : Bot) (channel : Str) : List File → World → World
  | [], w => w
  | file :: rest, w => handleFileUploadFrom b channel rest (handleFileUploadBody b channel file w)

/-- Method `handleFileUpload`. -/
def handleFileUpload (b : Bot) (ev : MessageEvent) (w : World) : World :=
  handleFileUploadFrom b ev.Channel ev.Files w

/-- Method `handleMessageEvent`. -/
def handleMessageEvent (b : Bot) (event : EventsAPIEvent) (w : World) : World :=
  match event.InnerEvent with
  | .Other => w
  | .MessageEvent ev =>
    -- Ignore messages from the bot itself
    match b.client.GetBotInfo w with
    | .error err => (w.emit .GetBotInfo).emit (.Log (.ErrorGettingBotInfo err))
    | .ok infoID =>
      let w1 := w.emit .GetBotInfo
      if ev.User = infoID then w1
      -- Check if the message has files
      else if ev.Files ≠ [] then handleFileUpload b ev w1
      else w1

/-- Method `handleEventAPI`. -/
def handleEventAPI (b : Bot) (event : EventsAPIEvent) (w : World) : World :=
  if event.Type_ = b.client.EventTypeMessage then handleMessageEvent b event w else w

/-- Text of the reply to the `/upload` command. -/
def uploadInstructions : Str :=
  "To upload a file, simply attach it to a message in this channel.".toList

/-- Method `handleSlashCommand`; the message goes out through the client of the bot and is
recorded in the world. -/
def handleSlashCommand (_b : Bot) (cmd : SlashCommand) (w : World) : World :=
  if cmd.Command = "/upload".toList then
    w.emit (.PostMessage cmd.ChannelID uploadInstructions)
  else w

/-- Body of the loop `for evt := range b.socketClient.Events` of `handleEvents`. -/
def handleEventsBody (b : Bot) (evt : Event) (w : World) : World :=
  match evt.Type_ with
  | .Connecting => w.emit (.Log .Connecting)
  | .ConnectionError => w.emit (.Log .ConnectionFailed)
  | .Connected => w.emit (.Log .Connected)
  | .EventsAPI =>
    let w1 := w.emit (.Ack evt.Request)
    match evt.Data with
    | .EventsAPIEvent eventsAPIEvent =>
      handleEventAPI b eventsAPIEvent (w1.emit (.Log (.EventReceived eventsAPIEvent.Type_)))
    | _ => w1.emit (.Log (.Ignored evt))
  | .SlashCommand =>
    match evt.Data with
    | .SlashCommand cmd => handleSlashCommand b cmd (w.emit (.Ack evt.Request))
    | _ => w.emit (.Log (.Ignored evt))
  | .Other => w

/-- Method `handleEvents` on the envelopes the stream delivers, in order. -/
def handleEvents (b : Bot) : List Event → World → World
  | [], w => w
  | evt :: rest, w => handleEvents b rest (handleEventsBody b evt w)

/-! ## Auxiliary definitions for the proofs -/

/-- A world with no files and no calls yet. -/
def emptyWorld : World := { fs := [], trace := [] }

/-- Collaborators for the scenarios: the bot is `U1`; the metadata of `F3` cannot be
resolved; the download of `F4` fails at the network level; the download of `F5` is
answered with status 404; the file `uploads/locked.bin` cannot be created; everything
else succeeds. -/
def sampleClient : Env where
  EventTypeMessage := "message".toList
  GetBotInfo := fun _ => .ok "U1".toList
  GetFileInfo := fun _ fileID =>
    if fileID = "F3".toList then .error "file_not_found".toList
    else .ok ("https://files.example/".toList ++ fileID)
  Get := fun _ url =>
    if url = "https://files.example/F4".toList then .error "connection refused".toList
    else if url = "https://files.example/F5".toList then .ok { StatusCode := 404, Body := [52, 48, 52] }
    else .ok { StatusCode := 200, Body := [80, 68, 70] }
  Create := fun _ filePath =>
    if filePath = "uploads/locked.bin".toList then some "permission denied".toList else none
  Copy := fun _ _ _ => none

/-- The bot of the scenarios, storing under `uploads`. -/
def sampleBot : Bot := { client := sampleClient, uploadDir := "uploads".toList }

/-- Every step of the download of `file` succeeds whenever it is attempted: the
metadata resolves to some URL, the fetch of that URL returns some response, and the
destination file can be created and takes the whole body. -/
def Succeeds (b : Bot) (file : File) : Prop :=
  ∃ url resp, (∀ w, b.client.GetFileInfo w file.ID = .ok url) ∧
    (∀ w, b.client.Get w url = .ok resp) ∧
    (∀ w, b.client.Create w (destPath b.uploadDir file.Name) = none) ∧
    (∀ w, b.client.Copy w (destPath b.uploadDir file.Name) resp.Body = none)

/-- The four prefixes with which `downloadFile` wraps an error, one per failing step. -/
def failureStages : List Str :=
  ["error getting file info: ".toList, "error downloading file: ".toList,
    "error creating file: ".toList, "error writing file: ".toList]

/-- Shape of the buffer while a relative path is cleaned: it does not start with a
separator and its first element is not `.`. -/
def RelShape : Str → Prop
  | [] => True
  | [c] => c ≠ '/' ∧ c ≠ '.'
  | c :: d :: _ => c ≠ '/' ∧ (c = '.' → d ≠ '/')

/-- Invariant of the loop of `filepath.Clean`. -/
structure CleanInv (rooted : Bool) (st : CleanState) : Prop where
  le : st.dotdot ≤ st.out.length
  abs : rooted = true → st.dotdot = 1 ∧ st.out.head? = some '/'
  rel : rooted = false → st.dotdot ≠ 1 ∧ RelShape st.out

/-- The confirmation `handleFileUpload` posts to `channel` for `file`. -/
def successPost (channel : Str) (file : File) : Str × Str :=
  (channel, successText file.Name)

/-- Specification side of the notifier: the step of the download of `file`, started in
world `w`, that fails first, as the prefix of that step and the text of the error the
collaborator returned for it; `none` when metadata resolution, fetch, file creation and
write all succeed.  The collaborators are asked in the worlds in which the calls are
made. -/
def specFirstFailure (b : Bot) (file : File) (w : World) : Option (Str × Str) :=
  match b.client.GetFileInfo w file.ID with
  | .error err => some ("error getting file info: ".toList, err)
  | .ok url =>
    match b.client.Get (w.emit (.GetFileInfo file.ID)) url with
    | .error err => some ("error downloading file: ".toList, err)
    | .ok resp =>
      match b.client.Create ((w.emit (.GetFileInfo file.ID)).emit (.HttpGet url))
          (destPath b.uploadDir file.Name) with
      | some err => some ("error creating file: ".toList, err)
      | none =>
        match b.client.Copy
            { fs := fsWrite w.fs (destPath b.uploadDir file.Name) [],
              trace := w.trace ++ [.GetFileInfo file.ID, .HttpGet url,
                .Create (destPath b.uploadDir file.Name)] }
            (destPath b.uploadDir file.Name) resp.Body with
        | some (_, err) => some ("error writing file: ".toList, err)
        | none => none

/-- Specification side of the notifier: the text of the one message for `file`.  The
confirmation with the declared name when no step fails; otherwise
`Error downloading file: `, the prefix of the failing step and the text of its
error. -/
def specMessage (b : Bot) (file : File) (w : World) : Str :=
  match specFirstFailure b file w with
  | none => "File `".toList ++ file.Name ++
      "` has been successfully downloaded and saved.".toList
  | some (stage, err) => "Error downloading file: ".toList ++ (stage ++ err)

/-- Specification side of the notifier: one message per file reference, in the order of
the references, all to `channel`; each file is looked at in the world its iteration of
the loop starts in. -/
def specPosts (b : Bot) (channel : Str) : List File → World → List (Str × Str)
  | [], _ => []
  | file :: rest, w =>
    (channel, specMessage b file w) ::
      specPosts b channel rest (handleFileUploadBody b channel file w)

/-! ## Facts about `filepath.Clean` -/

theorem IsPathSeparator_iff (c : Char) : IsPathSeparator c = true ↔ c = '/' := by
  simp [IsPathSeparator]

/-- The unread part of the path after one iteration of the loop. -/
theorem cleanStep_fst (rooted : Bool) (c : Char) (tl : Str) (st : CleanState) :
    (cleanStep rooted c tl st).1 =
      if IsPathSeparator c then tl
      else if c = '.' ∧ (tl = [] ∨ IsPathSeparator (tl.headD '/')) then tl
      else if c = '.' ∧ tl.headD '/' = '.' ∧
          (tl.tail = [] ∨ IsPathSeparator (tl.tail.headD '/')) then tl.tail
      else (c :: tl).dropWhile (fun x => !(IsPathSeparator x)) := by
  unfold cleanStep
  split_ifs <;> rfl

theorem cleanStep_length (rooted : Bool) (c : Char) (tl : Str) (st : CleanState) :
    (cleanStep rooted c tl st).1.length ≤ tl.length := by
  rw [cleanStep_fst]
  split_ifs with h1 h2 h3
  · exact le_refl _
  · exact le_refl _
  · simp
  · have hc : IsPathSeparator c = false := by simpa using h1
    simp only [List.dropWhile_cons, hc, Bool.not_false, if_true]
    exact (List.dropWhile_sublist _).length_le

/-- The loop of `filepath.Clean` has finished once the fuel covers the bytes still
to read: more fuel does not change the result. -/
theorem cleanLoop_fuel (rooted : Bool) :
    ∀ (f1 f2 : Nat) (rest : Str) (st : CleanState), rest.length ≤ f1 → rest.length ≤ f2 →
      cleanLoop rooted f1 rest st = cleanLoop rooted f2 rest st := by
  intro f1
  induction f1 with
  | zero =>
    intro f2 rest st h1 _
    have : rest = [] := List.length_eq_zero.mp (Nat.le_zero.mp h1)
    subst this
    cases f2 <;> simp [cleanLoop]
  | succ n ih =>
    intro f2 rest st h1 h2
    cases rest with
    | nil => cases f2 <;> simp [cleanLoop]
    | cons c tl =>
      cases f2 with
      | zero => simp at h2
      | succ m =>
        simp only [cleanLoop]
        have hl := cleanStep_length rooted c tl st
        simp only [List.length_cons] at h1 h2
        exact ih m _ _ (by omega) (by omega)

theorem cleanLoop_cons (rooted : Bool) (c : Char) (tl : Str) (st : CleanState) :
    cleanLoop rooted (c :: tl).length (c :: tl) st =
      cleanLoop rooted (cleanStep rooted c tl st).1.length
        (cleanStep rooted c tl st).1 (cleanStep rooted c tl st).2 := by
  simp only [List.length_cons, cleanLoop]
  exact cleanLoop_fuel rooted _ _ _ _ (cleanStep_length rooted c tl st) (le_refl _)

theorem takeWhile_append_sep (l b : Str) :
    (l ++ '/' :: b).takeWhile (fun x => !(IsPathSeparator x)) =
      l.takeWhile (fun x => !(IsPathSeparator x)) := by
  induction l with
  | nil => simp [IsPathSeparator]
  | cons a l ih =>
    simp only [List.cons_append, List.takeWhile_cons]
    split_ifs
    · rw [ih]
    · rfl

theorem dropWhile_append_sep (l b : Str) :
    (l ++ '/' :: b).dropWhile (fun x => !(IsPathSeparator x)) =
      l.dropWhile (fun x => !(IsPathSeparator x)) ++ '/' :: b := by
  induction l with
  | nil => simp [IsPathSeparator]
  | cons a l ih =>
    simp only [List.cons_append, List.dropWhile_cons]
    split_ifs
    · rw [ih]
    · rfl

/-- An iteration of the loop only looks ahead as far as the next separator. -/
theorem cleanStep_append (rooted : Bool) (c : Char) (tl : Str) (st : CleanState) (b : Str) :
    cleanStep rooted c (tl ++ '/' :: b) st =
      ((cleanStep rooted c tl st).1 ++ '/' :: b, (cleanStep rooted c tl st).2) := by
  have htw := takeWhile_append_sep (c :: tl) b
  have hdw := dropWhile_append_sep (c :: tl) b
  simp only [List.cons_append] at htw hdw
  rcases tl with _ | ⟨d, _ | ⟨e, tl⟩⟩
  · unfold cleanStep
    simp only [List.nil_append] at htw hdw ⊢
    rw [htw, hdw]
    by_cases h1 : IsPathSeparator c = true
    · simp [h1]
    · by_cases h2 : c = '.'
      · simp [h1, h2, IsPathSeparator]
      · simp [h1, h2]
  · unfold cleanStep
    simp only [List.cons_append, List.nil_append] at htw hdw ⊢
    rw [htw, hdw]
    by_cases h1 : IsPathSeparator c = true
    · simp [h1]
    · by_cases h2 : c = '.' ∧ IsPathSeparator d = true
      · simp [h1, h2]
      · by_cases h3 : c = '.' ∧ d = '.'
        · simp [h1, h2, h3, IsPathSeparator]
          split_ifs <;> simp
        · simp [h1, h2, h3]
          intro hc hd
          exact absurd ⟨hc, hd⟩ h3
  · unfold cleanStep
    simp only [List.cons_append] at htw hdw ⊢
    rw [htw, hdw]
    simp only [List.headD_cons, List.tail_cons, reduceCtorEq, false_or]
    split_ifs <;> rfl

/-- Cleaning `a/b` first runs the loop over `a` and then, from the buffer reached,
over `/b`. -/
theorem cleanLoop_append (rooted : Bool) (b : Str) :
    ∀ (n : Nat) (a : Str) (st : CleanState), a.length ≤ n →
      cleanLoop rooted (a ++ '/' :: b).length (a ++ '/' :: b) st =
        cleanLoop rooted ('/' :: b).length ('/' :: b) (cleanLoop rooted a.length a st) := by
  intro n
  induction n with
  | zero =>
    intro a st h
    have : a = [] := List.length_eq_zero.mp (Nat.le_zero.mp h)
    subst this
    simp [cleanLoop]
  | succ n ih =>
    intro a st h
    cases a with
    | nil => simp [cleanLoop]
    | cons c tl =>
      have hl := cleanStep_length rooted c tl st
      simp only [List.length_cons] at h
      have e1 := cleanLoop_cons rooted c (tl ++ '/' :: b) st
      have e2 := cleanLoop_cons rooted c tl st
      rw [cleanStep_append] at e1
      rw [List.cons_append, e1, e2]
      exact ih (cleanStep rooted c tl st).1 (cleanStep rooted c tl st).2 (by omega)

/-- The loop over `/elem`, where `elem` is a single path element other than `.` and
`..`, appends the element to the buffer, after a separator if the buffer needs one. -/
theorem cleanLoop_sep_elem (rooted : Bool) (st : CleanState) (elem : Str)
    (h1 : ∀ c ∈ elem, c ≠ '/') (h2 : elem ≠ []) (h3 : elem ≠ ['.'])
    (h4 : elem ≠ ['.', '.']) :
    cleanLoop rooted ('/' :: elem).length ('/' :: elem) st =
      { st with
        out := (if (rooted && st.out.length != 1) || (!rooted && st.out.length != 0) then
            st.out ++ ['/'] else st.out) ++ elem } := by
  have hs : cleanStep rooted '/' elem st = (elem, st) := by simp [cleanStep, IsPathSeparator]
  rw [cleanLoop_cons, hs]
  cases elem with
  | nil => exact absurd rfl h2
  | cons c tl =>
    have hc : c ≠ '/' := h1 c (by simp)
    have htl : ∀ x ∈ tl, x ≠ '/' := fun x hx => h1 x (by simp [hx])
    have hall : ∀ x ∈ c :: tl, (fun x => !(IsPathSeparator x)) x = true := by
      intro x hx
      simp [IsPathSeparator, h1 x hx]
    have htw : (c :: tl).takeWhile (fun x => !(IsPathSeparator x)) = c :: tl :=
      List.takeWhile_eq_self_iff.mpr hall
    have hdw : (c :: tl).dropWhile (fun x => !(IsPathSeparator x)) = [] :=
      List.dropWhile_eq_nil_iff.mpr hall
    have hstep : cleanStep rooted c tl st = ([], { st with
        out := (if (rooted && st.out.length != 1) || (!rooted && st.out.length != 0) then
            st.out ++ ['/'] else st.out) ++ c :: tl }) := by
      unfold cleanStep
      rw [htw, hdw]
      have e1 : IsPathSeparator c = false := by simp [IsPathSeparator, hc]
      have e2 : ¬ (c = '.' ∧ (tl = [] ∨ IsPathSeparator (tl.headD '/') = true)) := by
        rintro ⟨rfl, h | h⟩
        · exact h3 (by rw [h])
        · cases tl with
          | nil => exact h3 rfl
          | cons d tl =>
            simp only [List.headD_cons, IsPathSeparator_iff] at h
            exact htl d (by simp) h
      have e3 : ¬ (c = '.' ∧ tl.headD '/' = '.' ∧
          (tl.tail = [] ∨ IsPathSeparator (tl.tail.headD '/') = true)) := by
        rintro ⟨rfl, hd, h⟩
        rcases tl with _ | ⟨d, _ | ⟨e, tl⟩⟩
        · simp at hd
        · simp only [List.headD_cons] at hd
          subst hd
          exact h4 rfl
        · rcases h with h | h
          · simp at h
          · simp only [List.tail_cons, List.headD_cons, IsPathSeparator_iff] at h
            exact htl e (by simp) h
      simp only [e1, e2, e3, if_false, Bool.false_eq_true]
    rw [cleanLoop_cons, hstep]
    simp [cleanLoop]

theorem backtrack_le (out : Str) (dd : Nat) : ∀ w, backtrack out dd w ≤ w := by
  intro w
  induction w with
  | zero => simp [backtrack]
  | succ w ih =>
    unfold backtrack
    split_ifs
    · omega
    · exact le_refl _

theorem backtrack_ge (out : Str) (dd : Nat) : ∀ w, dd ≤ w → dd ≤ backtrack out dd w := by
  intro w
  induction w with
  | zero => intro h; simpa [backtrack] using h
  | succ w ih =>
    intro h
    unfold backtrack
    split_ifs with hc
    · simp only [Bool.and_eq_true, decide_eq_true_eq] at hc
      exact ih (by omega)
    · exact h

/-- Backtracking stops at `dotdot` or on a separator. -/
theorem backtrack_stop (out : Str) (dd : Nat) :
    ∀ w, backtrack out dd w ≤ dd ∨ out.getD (backtrack out dd w) '/' = '/' := by
  intro w
  induction w with
  | zero => left; simp [backtrack]
  | succ w ih =>
    unfold backtrack
    split_ifs with hc
    · exact ih
    · simp only [Bool.and_eq_true, decide_eq_true_eq, Bool.not_eq_true', not_and,
        Bool.not_eq_false, IsPathSeparator_iff] at hc
      by_cases h : w + 1 > dd
      · right; exact hc h
      · left; omega

theorem RelShape_append (out x : Str) (h : RelShape out) (hne : out ≠ []) :
    RelShape (out ++ '/' :: x) := by
  rcases out with _ | ⟨c, _ | ⟨d, t⟩⟩
  · exact absurd rfl hne
  · simp only [RelShape] at h
    simp only [List.cons_append, List.nil_append, RelShape]
    exact ⟨h.1, fun hc => absurd hc h.2⟩
  · simpa [RelShape] using h

theorem RelShape_take (out : Str) (w : Nat) (h : RelShape out)
    (hw : w = 0 ∨ 2 ≤ w ∨ out.getD w '/' = '/') : RelShape (out.take w) := by
  rcases out with _ | ⟨c, _ | ⟨d, t⟩⟩
  · simp [RelShape]
  · cases w with
    | zero => simp [RelShape]
    | succ w => simpa using h
  · rcases w with _ | _ | w
    · simp [RelShape]
    · simp only [RelShape] at h
      rcases hw with hw | hw | hw
      · omega
      · omega
      · simp only [zero_add, List.getD_cons_succ, List.getD_cons_zero] at hw
        simp only [zero_add, List.take_succ_cons, List.take_zero, RelShape]
        exact ⟨h.1, fun hc => h.2 hc hw⟩
    · simpa [RelShape] using h

theorem cleanStep_inv (rooted : Bool) (c : Char) (tl : Str) (st : CleanState)
    (h : CleanInv rooted st) : CleanInv rooted (cleanStep rooted c tl st).2 := by
  unfold cleanStep
  by_cases h1 : IsPathSeparator c = true
  · rw [if_pos h1]
    exact h
  rw [if_neg h1]
  by_cases h2 : c = '.' ∧ (tl = [] ∨ IsPathSeparator (tl.headD '/') = true)
  · rw [if_pos h2]
    exact h
  rw [if_neg h2]
  by_cases h3 : c = '.' ∧ tl.headD '/' = '.' ∧
      (tl.tail = [] ∨ IsPathSeparator (tl.tail.headD '/') = true)
  · rw [if_pos h3]
    by_cases h4 : st.out.length > st.dotdot
    · rw [if_pos h4]
      have hle := backtrack_le st.out st.dotdot (st.out.length - 1)
      have hge := backtrack_ge st.out st.dotdot (st.out.length - 1) (by omega)
      have hstop := backtrack_stop st.out st.dotdot (st.out.length - 1)
      refine ⟨?_, ?_, ?_⟩
      · simp only [List.length_take]
        omega
      · intro hr
        obtain ⟨hd, hh⟩ := h.abs hr
        refine ⟨hd, ?_⟩
        cases hout : st.out with
        | nil => rw [hout] at hh; simp at hh
        | cons a t =>
          rw [hout] at hh hge
          rw [hd] at hge
          obtain ⟨k, hk⟩ : ∃ k, backtrack (a :: t) 1 ((a :: t).length - 1) = k + 1 :=
            ⟨backtrack (a :: t) 1 ((a :: t).length - 1) - 1, by omega⟩
          rw [hd, hk]
          simpa using hh
      · intro hr
        obtain ⟨hd, hq⟩ := h.rel hr
        refine ⟨hd, RelShape_take _ _ hq ?_⟩
        rcases hstop with hs | hs
        · have : backtrack st.out st.dotdot (st.out.length - 1) = st.dotdot := by omega
          rw [this]
          omega
        · exact Or.inr (Or.inr hs)
    · rw [if_neg h4]
      cases hr : rooted with
      | true =>
        rw [hr] at h
        simpa using h
      | false =>
        simp only [Bool.not_false, if_true]
        refine ⟨le_refl _, fun hf => absurd hf (by simp), fun _ => ⟨?_, ?_⟩⟩
        · simp only [List.length_append, List.length_cons, List.length_nil]
          omega
        · obtain ⟨_, hq⟩ := h.rel hr
          by_cases hlen : st.out.length > 0
          · simp only [hlen, if_true, List.append_assoc, List.singleton_append]
            exact RelShape_append _ _ hq (List.length_pos.mp hlen)
          · have : st.out = [] := List.length_eq_zero.mp (by omega)
            simp [this, RelShape]
  · rw [if_neg h3]
    have hc : IsPathSeparator c = false := by simpa using h1
    have hcs : c ≠ '/' := fun hh => h1 ((IsPathSeparator_iff c).mpr hh)
    have helem : (c :: tl).takeWhile (fun x => !(IsPathSeparator x)) =
        c :: tl.takeWhile (fun x => !(IsPathSeparator x)) := by
      simp [List.takeWhile_cons, hc]
    rw [helem]
    refine ⟨?_, ?_, ?_⟩
    · have := h.le
      simp only [List.length_append]
      split_ifs <;> simp <;> omega
    · intro hr
      obtain ⟨hd, hh⟩ := h.abs hr
      refine ⟨hd, ?_⟩
      cases hout : st.out with
      | nil => rw [hout] at hh; simp at hh
      | cons a t =>
        rw [hout] at hh
        split_ifs <;> simpa using hh
    · intro hr
      obtain ⟨hd, hq⟩ := h.rel hr
      refine ⟨hd, ?_⟩
      by_cases hlen : st.out.length = 0
      · have hnil : st.out = [] := List.length_eq_zero.mp hlen
        simp only [hr, hnil, List.length_nil, Bool.false_and, Bool.not_false, bne_self_eq_false,
          Bool.and_false, Bool.or_self, Bool.false_eq_true, if_false, List.nil_append]
        rcases tl with _ | ⟨d, t⟩
        · have hcd : c ≠ '.' := fun hh => h2 ⟨hh, Or.inl rfl⟩
          simp [RelShape, hcs, hcd]
        · by_cases hd2 : IsPathSeparator d = true
          · have hcd : c ≠ '.' := fun hh => h2 ⟨hh, Or.inr (by simpa using hd2)⟩
            simp [List.takeWhile_cons, hd2, RelShape, hcs, hcd]
          · have hds : d ≠ '/' := fun hh => hd2 ((IsPathSeparator_iff d).mpr hh)
            simp [List.takeWhile_cons, hd2, RelShape, hcs, hds]
      · have hne : st.out ≠ [] := fun hh => hlen (by rw [hh]; rfl)
        have hcond : ((rooted && st.out.length != 1) || (!rooted && st.out.length != 0)) = true := by
          simp [hr, hlen, hne]
        simp only [hcond, if_true, List.append_assoc, List.singleton_append]
        exact RelShape_append _ _ hq hne

theorem cleanLoop_inv (rooted : Bool) :
    ∀ (fuel : Nat) (rest : Str) (st : CleanState), CleanInv rooted st →
      CleanInv rooted (cleanLoop rooted fuel rest st) := by
  intro fuel
  induction fuel with
  | zero => intro rest st h; simpa [cleanLoop] using h
  | succ n ih =>
    intro rest st h
    cases rest with
    | nil => simpa [cleanLoop] using h
    | cons c tl =>
      simp only [cleanLoop]
      exact ih _ _ (cleanStep_inv rooted c tl st h)

/-- Cleaning `root/elem` for a non-empty `root` and a single path element `elem`
other than `.` and `..`: the element is attached to the cleaned root, with a
separator unless the cleaned root is `.` (which is dropped) or `/` (which already
ends in one). -/
theorem Clean_append_elem (root elem : Str) (hroot : root ≠ [])
    (h1 : ∀ c ∈ elem, c ≠ '/') (h2 : elem ≠ []) (h3 : elem ≠ ['.'])
    (h4 : elem ≠ ['.', '.']) :
    Clean (root ++ '/' :: elem) =
      if Clean root = ['.'] then elem
      else if Clean root = ['/'] then '/' :: elem
      else Clean root ++ '/' :: elem := by
  obtain ⟨r, rs, rfl⟩ := List.exists_cons_of_ne_nil hroot
  cases hr : IsPathSeparator r with
  | true =>
    have hinv := cleanLoop_inv true rs.length rs ⟨['/'], 1⟩
      ⟨by simp, fun _ => ⟨rfl, rfl⟩, fun hf => absurd hf (by simp)⟩
    obtain ⟨_, hhead⟩ := hinv.abs rfl
    generalize hst : cleanLoop true rs.length rs ⟨['/'], 1⟩ = st at hinv hhead
    obtain ⟨a, t, hout⟩ : ∃ a t, st.out = a :: t := by
      cases hh : st.out with
      | nil => rw [hh] at hhead; simp at hhead
      | cons a t => exact ⟨a, t, rfl⟩
    have ha : a = '/' := by rw [hout] at hhead; simpa using hhead
    subst ha
    have hC : Clean (r :: rs) = '/' :: t := by
      simp [Clean, hr, hst, hout]
    have hJ : Clean (r :: rs ++ '/' :: elem) =
        (if t.length != 0 then ('/' :: t) ++ ['/'] else '/' :: t) ++ elem := by
      have := cleanLoop_append true elem rs.length rs ⟨['/'], 1⟩ (le_refl _)
      rw [hst, cleanLoop_sep_elem true st elem h1 h2 h3 h4] at this
      simp only [List.length_append, List.length_cons] at this
      simp [Clean, hr, this, hout, h2]
    rw [hC, hJ]
    cases t with
    | nil => simp
    | cons b t => simp
  | false =>
    have hinv := cleanLoop_inv false (r :: rs).length (r :: rs) ⟨[], 0⟩
      ⟨by simp, fun hf => absurd hf (by simp), fun _ => ⟨by simp, trivial⟩⟩
    obtain ⟨_, hq⟩ := hinv.rel rfl
    generalize hst : cleanLoop false (r :: rs).length (r :: rs) ⟨[], 0⟩ = st at hinv hq
    have hC : Clean (r :: rs) = if st.out.length = 0 then ['.'] else st.out := by
      simp [Clean, hr, ← hst]
    have hJ : Clean (r :: rs ++ '/' :: elem) =
        (if st.out.length != 0 then st.out ++ ['/'] else st.out) ++ elem := by
      have := cleanLoop_append false elem (r :: rs).length (r :: rs) ⟨[], 0⟩ (le_refl _)
      rw [hst, cleanLoop_sep_elem false st elem h1 h2 h3 h4] at this
      simp only [List.cons_append, List.length_append, List.length_cons] at this
      simp [Clean, hr, this, h2]
    rw [hC, hJ]
    rcases hout : st.out with _ | ⟨c, _ | ⟨d, t⟩⟩
    · simp
    · rw [hout] at hq
      simp only [RelShape] at hq
      simp [hq.1, hq.2]
    · simp

/-! ## Destination path of a download -/

theorem ReplaceAll_not_mem (s : Str) : '/' ∉ ReplaceAll s '/' '_' := by
  intro h
  simp only [ReplaceAll, List.mem_map] at h
  obtain ⟨c, _, hc⟩ := h
  split_ifs at hc with h1
  · exact absurd hc (by decide)
  · exact h1 hc

theorem ReplaceAll_mem (s : Str) (h : '/' ∈ s) : '_' ∈ ReplaceAll s '/' '_' := by
  simp only [ReplaceAll, List.mem_map]
  exact ⟨'/', h, by simp⟩

/-- C1, as amended: for a non-empty upload root and a declared name containing `/`,
the sanitised name contains no `/` and is neither `.` nor `..`, and the destination
is the cleaned upload root, one separator and the sanitised name; except that for a
cleaned root `.` the destination is the sanitised name alone, and for a cleaned root
`/` it is `/` followed by the sanitised name. -/
theorem destPath_direct_child (uploadDir name : Str) (hroot : uploadDir ≠ [])
    (hsep : '/' ∈ name) :
    '/' ∉ ReplaceAll name '/' '_' ∧
    ReplaceAll name '/' '_' ≠ ['.'] ∧
    ReplaceAll name '/' '_' ≠ ['.', '.'] ∧
    destPath uploadDir name =
      if Clean uploadDir = ['.'] then ReplaceAll name '/' '_'
      else if Clean uploadDir = ['/'] then '/' :: ReplaceAll name '/' '_'
      else Clean uploadDir ++ '/' :: ReplaceAll name '/' '_' := by
  have hno := ReplaceAll_not_mem name
  have hus := ReplaceAll_mem name hsep
  have h2 : ReplaceAll name '/' '_' ≠ [] := fun h => by rw [h] at hus; simp at hus
  have h3 : ReplaceAll name '/' '_' ≠ ['.'] := fun h => by
    rw [h] at hus; exact absurd hus (by decide)
  have h4 : ReplaceAll name '/' '_' ≠ ['.', '.'] := fun h => by
    rw [h] at hus; exact absurd hus (by decide)
  refine ⟨hno, h3, h4, ?_⟩
  have h1 : ∀ c ∈ ReplaceAll name '/' '_', c ≠ '/' := fun c hc hcs => hno (hcs ▸ hc)
  simp only [destPath, Join, hroot, ne_eq, not_false_eq_true, if_true]
  exact Clean_append_elem uploadDir _ hroot h1 h2 h3 h4

/-- The scenario of the specification: under `./uploads` the name `../../etc/passwd`
is sanitised to `.._.._etc_passwd` and stored at `uploads/.._.._etc_passwd`. -/
theorem destPath_direct_child_witness :
    ReplaceAll "../../etc/passwd".toList '/' '_' = ".._.._etc_passwd".toList ∧
    '/' ∉ ReplaceAll "../../etc/passwd".toList '/' '_' ∧
    destPath "./uploads".toList "../../etc/passwd".toList =
      "uploads/.._.._etc_passwd".toList :=
  have h := destPath_direct_child "./uploads".toList "../../etc/passwd".toList
    (by decide) (by decide)
  ⟨by decide, h.1, h.2.2.2.trans (by decide)⟩

/-- C1 as stated fails: with upload root `.` the destination of `a/b` is `a_b`, not
the cleaned root `.` followed by a separator and `a_b`. -/
theorem destPath_dot_root_counterexample :
    ".".toList ≠ [] ∧ '/' ∈ "a/b".toList ∧
    destPath ".".toList "a/b".toList = "a_b".toList ∧
    destPath ".".toList "a/b".toList ≠
      Clean ".".toList ++ '/' :: ReplaceAll "a/b".toList '/' '_' := by
  decide

/-- C2, at the failing input: with the default upload root `./uploads` the declared
name `..` is left unchanged by the sanitisation and the destination is `.`, the
parent of the upload root; the names `.` and the empty name give the upload root
itself. -/
theorem destPath_dotdot_escapes :
    Clean "./uploads".toList = "uploads".toList ∧
    destPath "./uploads".toList "..".toList = ".".toList ∧
    destPath "./uploads".toList ".".toList = "uploads".toList ∧
    destPath "./uploads".toList [] = "uploads".toList := by
  decide

/-! ## Traces -/

theorem effectsSince_of_trace (w w1 : World) (es : List Effect)
    (h : w1.trace = w.trace ++ es) : effectsSince w w1 = es := by
  simp [effectsSince, h]

theorem posts_append (a b : List Effect) : posts (a ++ b) = posts a ++ posts b := by
  simp [posts]

/-! ## The five ways `downloadFile` can end -/

theorem downloadFile_lookup_error (b : Bot) (file : File) (w : World) (err : Str)
    (h1 : b.client.GetFileInfo w file.ID = .error err) :
    downloadFile b file w =
      (some ("error getting file info: ".toList ++ err),
        { fs := w.fs, trace := w.trace ++ [.GetFileInfo file.ID] }) := by
  simp only [downloadFile, h1, World.emit]

theorem downloadFile_get_error (b : Bot) (file : File) (w : World) (url err : Str)
    (h1 : b.client.GetFileInfo w file.ID = .ok url)
    (h2 : b.client.Get (w.emit (.GetFileInfo file.ID)) url = .error err) :
    downloadFile b file w =
      (some ("error downloading file: ".toList ++ err),
        { fs := w.fs, trace := w.trace ++ [.GetFileInfo file.ID, .HttpGet url] }) := by
  simp only [World.emit, destPath, List.append_assoc, List.singleton_append, List.cons_append,
    List.nil_append] at h2
  simp only [downloadFile, h1, h2, World.emit, destPath, List.append_assoc, List.singleton_append, List.cons_append,
    List.nil_append]

theorem downloadFile_create_error (b : Bot) (file : File) (w : World) (url err : Str)
    (resp : Response)
    (h1 : b.client.GetFileInfo w file.ID = .ok url)
    (h2 : b.client.Get (w.emit (.GetFileInfo file.ID)) url = .ok resp)
    (h3 : b.client.Create ((w.emit (.GetFileInfo file.ID)).emit (.HttpGet url))
      (destPath b.uploadDir file.Name) = some err) :
    downloadFile b file w =
      (some ("error creating file: ".toList ++ err),
        { fs := w.fs,
          trace := w.trace ++ [.GetFileInfo file.ID, .HttpGet url,
            .Create (destPath b.uploadDir file.Name), .CloseBody url] }) := by
  simp only [World.emit, destPath, List.append_assoc, List.singleton_append, List.cons_append,
    List.nil_append] at h2 h3
  simp only [downloadFile, h1, h2, h3, World.emit, destPath, List.append_assoc, List.singleton_append, List.cons_append,
    List.nil_append]

theorem downloadFile_copy_error (b : Bot) (file : File) (w : World) (url err : Str)
    (resp : Response) (n : Nat)
    (h1 : b.client.GetFileInfo w file.ID = .ok url)
    (h2 : b.client.Get (w.emit (.GetFileInfo file.ID)) url = .ok resp)
    (h3 : b.client.Create ((w.emit (.GetFileInfo file.ID)).emit (.HttpGet url))
      (destPath b.uploadDir file.Name) = none)
    (h4 : b.client.Copy
      { fs := fsWrite w.fs (destPath b.uploadDir file.Name) [],
        trace := w.trace ++ [.GetFileInfo file.ID, .HttpGet url,
          .Create (destPath b.uploadDir file.Name)] }
      (destPath b.uploadDir file.Name) resp.Body = some (n, err)) :
    downloadFile b file w =
      (some ("error writing file: ".toList ++ err),
        { fs := fsWrite (fsWrite w.fs (destPath b.uploadDir file.Name) [])
            (destPath b.uploadDir file.Name) (resp.Body.take n),
          trace := w.trace ++ [.GetFileInfo file.ID, .HttpGet url,
            .Create (destPath b.uploadDir file.Name),
            .Write (destPath b.uploadDir file.Name) (resp.Body.take n),
            .CloseFile (destPath b.uploadDir file.Name), .CloseBody url] }) := by
  simp only [World.emit, destPath, List.append_assoc, List.singleton_append, List.cons_append,
    List.nil_append] at h2 h3 h4
  simp only [downloadFile, h1, h2, h3, h4, World.emit, destPath, List.append_assoc, List.singleton_append, List.cons_append,
    List.nil_append]

theorem downloadFile_success (b : Bot) (file : File) (w : World) (url : Str)
    (resp : Response)
    (h1 : b.client.GetFileInfo w file.ID = .ok url)
    (h2 : b.client.Get (w.emit (.GetFileInfo file.ID)) url = .ok resp)
    (h3 : b.client.Create ((w.emit (.GetFileInfo file.ID)).emit (.HttpGet url))
      (destPath b.uploadDir file.Name) = none)
    (h4 : b.client.Copy
      { fs := fsWrite w.fs (destPath b.uploadDir file.Name) [],
        trace := w.trace ++ [.GetFileInfo file.ID, .HttpGet url,
          .Create (destPath b.uploadDir file.Name)] }
      (destPath b.uploadDir file.Name) resp.Body = none) :
    downloadFile b file w =
      (none,
        { fs := fsWrite (fsWrite w.fs (destPath b.uploadDir file.Name) [])
            (destPath b.uploadDir file.Name) resp.Body,
          trace := w.trace ++ [.GetFileInfo file.ID, .HttpGet url,
            .Create (destPath b.uploadDir file.Name),
            .Write (destPath b.uploadDir file.Name) resp.Body,
            .Log (.FileDownloaded (destPath b.uploadDir file.Name)),
            .CloseFile (destPath b.uploadDir file.Name), .CloseBody url] }) := by
  simp only [World.emit, destPath, List.append_assoc, List.singleton_append, List.cons_append,
    List.nil_append] at h2 h3 h4
  simp only [downloadFile, h1, h2, h3, h4, World.emit, destPath, List.append_assoc, List.singleton_append, List.cons_append,
    List.nil_append]

/-- Whatever the collaborators answer, `downloadFile` returns; it only adds calls, none
of which posts a message, and an error it returns is one of the four wrapped errors. -/
theorem downloadFile_cases (b : Bot) (file : File) (w : World) :
    ∃ es, (downloadFile b file w).2.trace = w.trace ++ es ∧ posts es = [] ∧
      ((downloadFile b file w).1 = none ∨
        ∃ stage ∈ failureStages, ∃ err, (downloadFile b file w).1 = some (stage ++ err)) := by
  cases h1 : b.client.GetFileInfo w file.ID with
  | error err =>
    rw [downloadFile_lookup_error b file w err h1]
    exact ⟨_, rfl, rfl, Or.inr ⟨_, by simp [failureStages], err, rfl⟩⟩
  | ok url =>
    cases h2 : b.client.Get (w.emit (.GetFileInfo file.ID)) url with
    | error err =>
      rw [downloadFile_get_error b file w url err h1 h2]
      exact ⟨_, rfl, rfl, Or.inr ⟨_, by simp [failureStages], err, rfl⟩⟩
    | ok resp =>
      cases h3 : b.client.Create ((w.emit (.GetFileInfo file.ID)).emit (.HttpGet url))
          (destPath b.uploadDir file.Name) with
      | some err =>
        rw [downloadFile_create_error b file w url err resp h1 h2 h3]
        exact ⟨_, rfl, rfl, Or.inr ⟨_, by simp [failureStages], err, rfl⟩⟩
      | none =>
        cases h4 : b.client.Copy
            { fs := fsWrite w.fs (destPath b.uploadDir file.Name) [],
              trace := w.trace ++ [.GetFileInfo file.ID, .HttpGet url,
                .Create (destPath b.uploadDir file.Name)] }
            (destPath b.uploadDir file.Name) resp.Body with
        | some p =>
          obtain ⟨n, err⟩ := p
          rw [downloadFile_copy_error b file w url err resp n h1 h2 h3 h4]
          exact ⟨_, rfl, rfl, Or.inr ⟨_, by simp [failureStages], err, rfl⟩⟩
        | none =>
          rw [downloadFile_success b file w url resp h1 h2 h3 h4]
          exact ⟨_, rfl, rfl, Or.inl rfl⟩

theorem fsRead_fsWrite (fs : List (Str × Bytes)) (filePath : Str) (data : Bytes) :
    fsRead (fsWrite fs filePath data) filePath = some data := by
  have h : (fs.filter (fun entry => decide (entry.1 ≠ filePath))).find?
      (fun entry => decide (entry.1 = filePath)) = none := by
    rw [List.find?_eq_none]
    intro x hx
    simpa using (List.mem_filter.mp hx).2
  simp [fsRead, fsWrite, List.find?_append, h]

/-! ## Self-authored messages -/

/-- C3: a message event whose author is the bot identity returned by the lookup leaves
the files untouched, and the only call made is that lookup: no file-metadata lookup,
no fetch, no file creation or write, no channel message, whatever files it lists. -/
theorem handleMessageEvent_self_authored (b : Bot) (event : EventsAPIEvent)
    (ev : MessageEvent) (w : World) (botID : Str)
    (hev : event.InnerEvent = .MessageEvent ev)
    (hbot : b.client.GetBotInfo w = .ok botID)
    (hself : ev.User = botID) :
    (handleMessageEvent b event w).fs = w.fs ∧
    effectsSince w (handleMessageEvent b event w) = [.GetBotInfo] ∧
    ∀ e ∈ effectsSince w (handleMessageEvent b event w), e.touchesFilesOrChannel = false := by
  have h : handleMessageEvent b event w = w.emit .GetBotInfo := by
    simp [handleMessageEvent, hev, hbot, hself]
  have ht : effectsSince w (handleMessageEvent b event w) = [.GetBotInfo] :=
    effectsSince_of_trace _ _ _ (by rw [h]; rfl)
  refine ⟨by rw [h]; rfl, ht, ?_⟩
  intro e he
  rw [ht] at he
  simp only [List.mem_singleton] at he
  subst he
  rfl

/-- A message by `U1`, the bot itself, listing a file. -/
theorem handleMessageEvent_self_authored_witness :
    (handleMessageEvent sampleBot
      { Type_ := "message".toList,
        InnerEvent := .MessageEvent
          { User := "U1".toList, Channel := "C1".toList,
            Files := [{ ID := "F1".toList, Name := "report.pdf".toList }] } }
      emptyWorld).fs = [] ∧
    effectsSince emptyWorld (handleMessageEvent sampleBot
      { Type_ := "message".toList,
        InnerEvent := .MessageEvent
          { User := "U1".toList, Channel := "C1".toList,
            Files := [{ ID := "F1".toList, Name := "report.pdf".toList }] } }
      emptyWorld) = [.GetBotInfo] :=
  have h := handleMessageEvent_self_authored sampleBot
    { Type_ := "message".toList,
      InnerEvent := .MessageEvent
        { User := "U1".toList, Channel := "C1".toList,
          Files := [{ ID := "F1".toList, Name := "report.pdf".toList }] } }
    { User := "U1".toList, Channel := "C1".toList,
      Files := [{ ID := "F1".toList, Name := "report.pdf".toList }] }
    emptyWorld "U1".toList rfl rfl rfl
  ⟨h.1, h.2.1⟩

/-! ## Slash commands and mismatched payloads -/

/-- C6: for a slash-command envelope carrying a slash command, the loop iteration
sends exactly one acknowledgement, that of the envelope, whatever the command; it
posts exactly one message, the upload instructions to the channel of the command, when
the command is `/upload`, and no message for any other command. -/
theorem handleEvents_slash_command (b : Bot) (evt : Event) (cmd : SlashCommand)
    (w : World)
    (hkind : evt.Type_ = .SlashCommand) (hdata : evt.Data = .SlashCommand cmd) :
    acks (effectsSince w (handleEventsBody b evt w)) = [evt.Request] ∧
    posts (effectsSince w (handleEventsBody b evt w)) =
      (if cmd.Command = "/upload".toList then [(cmd.ChannelID, uploadInstructions)] else []) ∧
    (handleEventsBody b evt w).fs = w.fs := by
  by_cases hc : cmd.Command = "/upload".toList
  · have h : handleEventsBody b evt w =
        { fs := w.fs, trace := w.trace ++
          [.Ack evt.Request, .PostMessage cmd.ChannelID uploadInstructions] } := by
      simp only [handleEventsBody, hkind, hdata, handleSlashCommand, if_pos hc, World.emit,
        List.append_assoc, List.singleton_append]
    rw [h, effectsSince_of_trace w _ _ rfl, if_pos hc]
    simp [acks, posts]
  · have h : handleEventsBody b evt w =
        { fs := w.fs, trace := w.trace ++ [.Ack evt.Request] } := by
      simp only [handleEventsBody, hkind, hdata, handleSlashCommand, if_neg hc, World.emit]
    rw [h, effectsSince_of_trace w _ _ rfl, if_neg hc]
    simp [acks, posts]

/-- The `/upload` command in channel `C1`. -/
theorem handleEvents_slash_command_witness :
    acks (effectsSince emptyWorld (handleEventsBody sampleBot
      { Type_ := .SlashCommand,
        Data := .SlashCommand { Command := "/upload".toList, ChannelID := "C1".toList },
        Request := { EnvelopeID := "E1".toList } } emptyWorld)) =
      [{ EnvelopeID := "E1".toList }] ∧
    posts (effectsSince emptyWorld (handleEventsBody sampleBot
      { Type_ := .SlashCommand,
        Data := .SlashCommand { Command := "/upload".toList, ChannelID := "C1".toList },
        Request := { EnvelopeID := "E1".toList } } emptyWorld)) =
      [("C1".toList, uploadInstructions)] :=
  have h := handleEvents_slash_command sampleBot
    { Type_ := .SlashCommand,
      Data := .SlashCommand { Command := "/upload".toList, ChannelID := "C1".toList },
      Request := { EnvelopeID := "E1".toList } }
    { Command := "/upload".toList, ChannelID := "C1".toList } emptyWorld rfl rfl
  ⟨h.1, h.2.1⟩

/-- C7, at the failing input: an API-event envelope whose payload is not an
`EventsAPIEvent` (something else, or a slash command) is acknowledged before the type
assertion, then logged and skipped without any handler, and the loop goes on with the
next envelope.  The sibling slash-command path asserts the type first and skips such
an envelope unacknowledged. -/
theorem handleEvents_mismatch_acknowledged (b : Bot) (req : Request) (cmd : SlashCommand)
    (rest : List Event) (w : World) :
    effectsSince w (handleEventsBody b { Type_ := .EventsAPI, Data := .Other, Request := req } w) =
      [.Ack req, .Log (.Ignored { Type_ := .EventsAPI, Data := .Other, Request := req })] ∧
    effectsSince w
      (handleEventsBody b { Type_ := .EventsAPI, Data := .SlashCommand cmd, Request := req } w) =
      [.Ack req,
        .Log (.Ignored { Type_ := .EventsAPI, Data := .SlashCommand cmd, Request := req })] ∧
    acks (effectsSince w
      (handleEventsBody b { Type_ := .EventsAPI, Data := .Other, Request := req } w)) = [req] ∧
    effectsSince w
      (handleEventsBody b { Type_ := .SlashCommand, Data := .Other, Request := req } w) =
      [.Log (.Ignored { Type_ := .SlashCommand, Data := .Other, Request := req })] ∧
    handleEvents b ({ Type_ := .EventsAPI, Data := .Other, Request := req } :: rest) w =
      handleEvents b rest
        { fs := w.fs, trace := w.trace ++
          [.Ack req, .Log (.Ignored { Type_ := .EventsAPI, Data := .Other, Request := req })] } := by
  have h1 : handleEventsBody b { Type_ := .EventsAPI, Data := .Other, Request := req } w =
      { fs := w.fs, trace := w.trace ++
        [.Ack req, .Log (.Ignored { Type_ := .EventsAPI, Data := .Other, Request := req })] } := by
    simp [handleEventsBody, World.emit]
  have h2 : handleEventsBody b { Type_ := .SlashCommand, Data := .Other, Request := req } w =
      { fs := w.fs, trace := w.trace ++
        [.Log (.Ignored { Type_ := .SlashCommand, Data := .Other, Request := req })] } := by
    simp [handleEventsBody, World.emit]
  have h3 : handleEventsBody b
      { Type_ := .EventsAPI, Data := .SlashCommand cmd, Request := req } w =
      { fs := w.fs, trace := w.trace ++
        [.Ack req,
          .Log (.Ignored { Type_ := .EventsAPI, Data := .SlashCommand cmd, Request := req })] } := by
    simp [handleEventsBody, World.emit]
  refine ⟨?_, ?_, ?_, ?_, ?_⟩
  · rw [h1, effectsSince_of_trace w _ _ rfl]
  · rw [h3, effectsSince_of_trace w _ _ rfl]
  · rw [h1, effectsSince_of_trace w _ _ rfl]
    simp [acks]
  · rw [h2, effectsSince_of_trace w _ _ rfl]
  · simp only [handleEvents, h1]

/-! ## Download outcomes seen from `handleFileUpload` -/

theorem handleFileUpload_cons (b : Bot) (ev : MessageEvent) (file : File) (rest : List File)
    (w : World) (hfiles : ev.Files = file :: rest) :
    handleFileUpload b ev w =
      handleFileUploadFrom b ev.Channel rest (handleFileUploadBody b ev.Channel file w) := by
  simp only [handleFileUpload, hfiles, handleFileUploadFrom]

/-- C9: when the metadata of a file reference resolves but the fetch returns a network
error, `downloadFile` leaves the files on disk unchanged and neither creates nor writes
a file; the loop iteration posts exactly one message, which contains
`Error downloading file` and the text of the error; and `handleFileUpload` goes on with
the remaining file references of the event. -/
theorem handleFileUpload_fetch_error (b : Bot) (ev : MessageEvent) (file : File)
    (rest : List File) (w : World) (url err : Str)
    (hfiles : ev.Files = file :: rest)
    (hmeta : b.client.GetFileInfo w file.ID = .ok url)
    (hget : b.client.Get (w.emit (.GetFileInfo file.ID)) url = .error err) :
    (downloadFile b file w).2.fs = w.fs ∧
    effectsSince w (downloadFile b file w).2 = [.GetFileInfo file.ID, .HttpGet url] ∧
    (handleFileUploadBody b ev.Channel file w).fs = w.fs ∧
    (∃ text, posts (effectsSince w (handleFileUploadBody b ev.Channel file w)) =
        [(ev.Channel, text)] ∧
      "Error downloading file".toList <:+: text ∧ err <:+: text) ∧
    handleFileUpload b ev w =
      handleFileUploadFrom b ev.Channel rest (handleFileUploadBody b ev.Channel file w) := by
  have hd := downloadFile_get_error b file w url err hmeta hget
  have hb : handleFileUploadBody b ev.Channel file w =
      { fs := w.fs, trace := w.trace ++ [.GetFileInfo file.ID, .HttpGet url,
        .Log (.ErrorDownloadingFile ("error downloading file: ".toList ++ err)),
        .PostMessage ev.Channel (failureText ("error downloading file: ".toList ++ err))] } := by
    simp only [handleFileUploadBody, hd, World.emit, List.append_assoc, List.singleton_append,
      List.cons_append, List.nil_append]
  refine ⟨by rw [hd], ?_, by rw [hb], ?_, handleFileUpload_cons b ev file rest w hfiles⟩
  · rw [hd]
    exact effectsSince_of_trace w _ _ rfl
  · refine ⟨failureText ("error downloading file: ".toList ++ err), ?_, ?_, ?_⟩
    · rw [hb, effectsSince_of_trace w _ _ rfl]
      simp [posts]
    · exact ⟨[], ": error downloading file: ".toList ++ err, rfl⟩
    · exact ⟨"Error downloading file: error downloading file: ".toList, [], by
        simp [failureText]⟩

/-- The download of `F4` is refused; `F1` follows in the same event. -/
theorem handleFileUpload_fetch_error_witness :
    (downloadFile sampleBot { ID := "F4".toList, Name := "notes.txt".toList } emptyWorld).2.fs
      = [] ∧
    posts (effectsSince emptyWorld (handleFileUploadBody sampleBot "C1".toList
      { ID := "F4".toList, Name := "notes.txt".toList } emptyWorld)) =
      [("C1".toList,
        "Error downloading file: error downloading file: connection refused".toList)] := by
  have h := handleFileUpload_fetch_error sampleBot
    { User := "U2".toList, Channel := "C1".toList,
      Files := [{ ID := "F4".toList, Name := "notes.txt".toList },
        { ID := "F1".toList, Name := "report.pdf".toList }] }
    { ID := "F4".toList, Name := "notes.txt".toList }
    [{ ID := "F1".toList, Name := "report.pdf".toList }] emptyWorld
    "https://files.example/F4".toList "connection refused".toList rfl rfl rfl
  exact ⟨h.1, by decide⟩

/-- C10, as amended: the status of the response plays no part.  When the fetch completes
without a network error, whatever its status, and the destination file can be created
and written in full, the body is written to the destination, `downloadFile` returns no
error and the loop iteration of `handleFileUpload` posts the confirmation for the
file. -/
theorem downloadFile_ignores_status (b : Bot) (channel : Str) (file : File) (w : World)
    (url : Str) (status : Nat) (body : Bytes)
    (hmeta : ∀ w1, b.client.GetFileInfo w1 file.ID = .ok url)
    (hget : ∀ w1, b.client.Get w1 url = .ok { StatusCode := status, Body := body })
    (hcreate : ∀ w1, b.client.Create w1 (destPath b.uploadDir file.Name) = none)
    (hcopy : ∀ w1, b.client.Copy w1 (destPath b.uploadDir file.Name) body = none) :
    (downloadFile b file w).1 = none ∧
    fsRead (downloadFile b file w).2.fs (destPath b.uploadDir file.Name) = some body ∧
    .Write (destPath b.uploadDir file.Name) body ∈ effectsSince w (downloadFile b file w).2 ∧
    posts (effectsSince w (handleFileUploadBody b channel file w)) =
      [(channel, successText file.Name)] := by
  have hd := downloadFile_success b file w url { StatusCode := status, Body := body }
    (hmeta _) (hget _) (hcreate _) (hcopy _)
  refine ⟨by rw [hd], ?_, ?_, ?_⟩
  · rw [hd]
    exact fsRead_fsWrite _ _ _
  · rw [hd, effectsSince_of_trace w _ _ rfl]
    simp
  · have hb : (handleFileUploadBody b channel file w).trace = w.trace ++
        [.GetFileInfo file.ID, .HttpGet url,
          .Create (destPath b.uploadDir file.Name),
          .Write (destPath b.uploadDir file.Name) body,
          .Log (.FileDownloaded (destPath b.uploadDir file.Name)),
          .CloseFile (destPath b.uploadDir file.Name), .CloseBody url,
          .PostMessage channel (successText file.Name)] := by
      simp only [handleFileUploadBody, hd, World.emit, List.append_assoc, List.singleton_append,
        List.cons_append, List.nil_append]
    rw [effectsSince_of_trace w _ _ hb]
    simp [posts]

/-- The download of `F5` is answered with status 404: the body of that answer is stored
and the file is reported as saved. -/
theorem downloadFile_ignores_status_witness :
    (downloadFile sampleBot { ID := "F5".toList, Name := "a.png".toList } emptyWorld).1 = none ∧
    fsRead (downloadFile sampleBot { ID := "F5".toList, Name := "a.png".toList } emptyWorld).2.fs
      "uploads/a.png".toList = some [52, 48, 52] ∧
    posts (effectsSince emptyWorld (handleFileUploadBody sampleBot "C1".toList
      { ID := "F5".toList, Name := "a.png".toList } emptyWorld)) =
      [("C1".toList, "File `a.png` has been successfully downloaded and saved.".toList)] :=
  have h := downloadFile_ignores_status sampleBot "C1".toList
    { ID := "F5".toList, Name := "a.png".toList } emptyWorld
    "https://files.example/F5".toList 404 [52, 48, 52]
    (fun _ => rfl) (fun _ => rfl) (fun _ => rfl) (fun _ => rfl)
  ⟨h.1, h.2.1, h.2.2.2⟩

/-- C10 as stated fails: the download of `F5` completes (with status 404), but the
destination `uploads/locked.bin` cannot be created; `downloadFile` returns an error,
nothing is stored and the failure message is posted. -/
theorem downloadFile_create_fails_counterexample :
    sampleBot.client.GetFileInfo emptyWorld "F5".toList =
      .ok "https://files.example/F5".toList ∧
    sampleBot.client.Get (emptyWorld.emit (.GetFileInfo "F5".toList))
      "https://files.example/F5".toList = .ok { StatusCode := 404, Body := [52, 48, 52] } ∧
    (downloadFile sampleBot { ID := "F5".toList, Name := "locked.bin".toList } emptyWorld).1 =
      some "error creating file: permission denied".toList ∧
    (downloadFile sampleBot { ID := "F5".toList, Name := "locked.bin".toList } emptyWorld).2.fs
      = [] ∧
    posts (effectsSince emptyWorld (handleFileUploadBody sampleBot "C1".toList
      { ID := "F5".toList, Name := "locked.bin".toList } emptyWorld)) =
      [("C1".toList,
        "Error downloading file: error creating file: permission denied".toList)] :=
  ⟨rfl, rfl, by decide, by decide, by decide⟩

/-! ## A message with one file -/

/-- C8: for a message event of another author with a single file reference whose
metadata resolution, fetch (with body `resp.Body`), file creation and write all
succeed, the file at `filepath.Join(uploadDir, sanitised name)` afterwards holds
exactly the body, and exactly one message is posted, to the channel of the event, with
the text "File, the declared name between backticks, has been successfully downloaded
and saved." -/
theorem handleMessageEvent_single_file (b : Bot) (event : EventsAPIEvent)
    (ev : MessageEvent) (file : File) (w : World) (botID url : Str) (resp : Response)
    (hev : event.InnerEvent = .MessageEvent ev)
    (hfiles : ev.Files = [file])
    (hbot : b.client.GetBotInfo w = .ok botID)
    (hother : ev.User ≠ botID)
    (hmeta : ∀ w1, b.client.GetFileInfo w1 file.ID = .ok url)
    (hget : ∀ w1, b.client.Get w1 url = .ok resp)
    (hcreate : ∀ w1, b.client.Create w1 (Join b.uploadDir (ReplaceAll file.Name '/' '_')) = none)
    (hcopy : ∀ w1, b.client.Copy w1 (Join b.uploadDir (ReplaceAll file.Name '/' '_')) resp.Body
      = none) :
    fsRead (handleMessageEvent b event w).fs
      (Join b.uploadDir (ReplaceAll file.Name '/' '_')) = some resp.Body ∧
    posts (effectsSince w (handleMessageEvent b event w)) =
      [(ev.Channel,
        "File `".toList ++ file.Name ++
          "` has been successfully downloaded and saved.".toList)] := by
  have hd := downloadFile_success b file (w.emit .GetBotInfo) url resp
    (hmeta _) (hget _) (hcreate _) (hcopy _)
  have h : handleMessageEvent b event w =
      { fs := fsWrite (fsWrite w.fs (destPath b.uploadDir file.Name) [])
          (destPath b.uploadDir file.Name) resp.Body,
        trace := w.trace ++ [.GetBotInfo, .GetFileInfo file.ID, .HttpGet url,
          .Create (destPath b.uploadDir file.Name),
          .Write (destPath b.uploadDir file.Name) resp.Body,
          .Log (.FileDownloaded (destPath b.uploadDir file.Name)),
          .CloseFile (destPath b.uploadDir file.Name), .CloseBody url,
          .PostMessage ev.Channel (successText file.Name)] } := by
    have hm : handleMessageEvent b event w =
        handleFileUploadBody b ev.Channel file (w.emit .GetBotInfo) := by
      simp only [handleMessageEvent, hev, hbot, if_neg hother, handleFileUpload,
        hfiles, handleFileUploadFrom, if_pos (List.cons_ne_nil file [])]
    rw [hm]
    unfold handleFileUploadBody
    rw [hd]
    simp only [World.emit, List.append_assoc, List.singleton_append,
      List.cons_append, List.nil_append]
  rw [h]
  refine ⟨fsRead_fsWrite _ _ _, ?_⟩
  rw [effectsSince_of_trace w _ _ rfl]
  simp [posts, successText]

/-- The scenario of the specification: author `U2`, bot `U1`, file `F1` named
`report.pdf`. -/
theorem handleMessageEvent_single_file_witness :
    fsRead (handleMessageEvent sampleBot
      { Type_ := "message".toList,
        InnerEvent := .MessageEvent
          { User := "U2".toList, Channel := "C1".toList,
            Files := [{ ID := "F1".toList, Name := "report.pdf".toList }] } }
      emptyWorld).fs "uploads/report.pdf".toList = some [80, 68, 70] ∧
    posts (effectsSince emptyWorld (handleMessageEvent sampleBot
      { Type_ := "message".toList,
        InnerEvent := .MessageEvent
          { User := "U2".toList, Channel := "C1".toList,
            Files := [{ ID := "F1".toList, Name := "report.pdf".toList }] } }
      emptyWorld)) =
      [("C1".toList,
        "File `report.pdf` has been successfully downloaded and saved.".toList)] :=
  handleMessageEvent_single_file sampleBot
    { Type_ := "message".toList,
      InnerEvent := .MessageEvent
        { User := "U2".toList, Channel := "C1".toList,
          Files := [{ ID := "F1".toList, Name := "report.pdf".toList }] } }
    { User := "U2".toList, Channel := "C1".toList,
      Files := [{ ID := "F1".toList, Name := "report.pdf".toList }] }
    { ID := "F1".toList, Name := "report.pdf".toList } emptyWorld "U1".toList
    "https://files.example/F1".toList { StatusCode := 200, Body := [80, 68, 70] }
    rfl rfl rfl (by decide) (fun _ => rfl) (fun _ => rfl) (fun _ => rfl) (fun _ => rfl)

/-! ## One message per file -/

/-- The error `downloadFile` returns is the prefix of the step that fails first followed
by the text of the error of that step, and `nil` when no step fails. -/
theorem downloadFile_error_eq (b : Bot) (file : File) (w : World) :
    (downloadFile b file w).1 =
      (specFirstFailure b file w).map (fun p => p.1 ++ p.2) := by
  cases h1 : b.client.GetFileInfo w file.ID with
  | error err =>
    rw [downloadFile_lookup_error b file w err h1]
    simp only [specFirstFailure, h1, Option.map_some']
  | ok url =>
    cases h2 : b.client.Get (w.emit (.GetFileInfo file.ID)) url with
    | error err =>
      rw [downloadFile_get_error b file w url err h1 h2]
      simp only [specFirstFailure, h1, h2, Option.map_some']
    | ok resp =>
      cases h3 : b.client.Create ((w.emit (.GetFileInfo file.ID)).emit (.HttpGet url))
          (destPath b.uploadDir file.Name) with
      | some err =>
        rw [downloadFile_create_error b file w url err resp h1 h2 h3]
        simp only [specFirstFailure, h1, h2, h3, Option.map_some']
      | none =>
        cases h4 : b.client.Copy
            { fs := fsWrite w.fs (destPath b.uploadDir file.Name) [],
              trace := w.trace ++ [.GetFileInfo file.ID, .HttpGet url,
                .Create (destPath b.uploadDir file.Name)] }
            (destPath b.uploadDir file.Name) resp.Body with
        | some p =>
          obtain ⟨n, err⟩ := p
          rw [downloadFile_copy_error b file w url err resp n h1 h2 h3 h4]
          simp only [specFirstFailure, h1, h2, h3, h4, Option.map_some']
        | none =>
          rw [downloadFile_success b file w url resp h1 h2 h3 h4]
          simp only [specFirstFailure, h1, h2, h3, h4, Option.map_none']

theorem specFirstFailure_stage (b : Bot) (file : File) (w : World) (stage err : Str)
    (h : specFirstFailure b file w = some (stage, err)) : stage ∈ failureStages := by
  unfold specFirstFailure at h
  split at h
  · simp only [Option.some.injEq, Prod.mk.injEq] at h
    rw [← h.1]; simp [failureStages]
  · split at h
    · simp only [Option.some.injEq, Prod.mk.injEq] at h
      rw [← h.1]; simp [failureStages]
    · split at h
      · simp only [Option.some.injEq, Prod.mk.injEq] at h
        rw [← h.1]; simp [failureStages]
      · split at h
        · simp only [Option.some.injEq, Prod.mk.injEq] at h
          rw [← h.1]; simp [failureStages]
        · exact absurd h (by simp)

/-- One iteration of the loop of `handleFileUpload` only adds calls, and exactly one of
them posts a message: the text the specification gives for the file. -/
theorem handleFileUploadBody_posts (b : Bot) (channel : Str) (file : File) (w : World) :
    ∃ es, (handleFileUploadBody b channel file w).trace = w.trace ++ es ∧
      posts es = [(channel, specMessage b file w)] := by
  obtain ⟨es, htrace, hposts, _⟩ := downloadFile_cases b file w
  have herr := downloadFile_error_eq b file w
  cases hs : specFirstFailure b file w with
  | none =>
    rw [hs] at herr
    simp only [Option.map_none'] at herr
    refine ⟨es ++ [.PostMessage channel (successText file.Name)], ?_, ?_⟩
    · have : handleFileUploadBody b channel file w =
          (downloadFile b file w).2.emit (.PostMessage channel (successText file.Name)) := by
        unfold handleFileUploadBody
        generalize downloadFile b file w = r at herr
        obtain ⟨r1, r2⟩ := r
        simp only at herr
        subst herr
        rfl
      rw [this]
      simp only [World.emit, htrace, List.append_assoc]
    · rw [posts_append, hposts]
      simp [posts, specMessage, hs, successText]
  | some p =>
    obtain ⟨stage, err⟩ := p
    rw [hs] at herr
    simp only [Option.map_some'] at herr
    refine ⟨es ++ [.Log (.ErrorDownloadingFile (stage ++ err)),
        .PostMessage channel (failureText (stage ++ err))], ?_, ?_⟩
    · have : handleFileUploadBody b channel file w =
          ((downloadFile b file w).2.emit (.Log (.ErrorDownloadingFile (stage ++ err)))).emit
            (.PostMessage channel (failureText (stage ++ err))) := by
        unfold handleFileUploadBody
        generalize downloadFile b file w = r at herr
        obtain ⟨r1, r2⟩ := r
        simp only at herr
        subst herr
        rfl
      rw [this]
      simp only [World.emit, htrace, List.append_assoc, List.singleton_append]
    · rw [posts_append, hposts]
      simp [posts, specMessage, hs, failureText]

theorem handleFileUploadFrom_posts (b : Bot) (channel : Str) :
    ∀ (files : List File) (w : World),
      ∃ es, (handleFileUploadFrom b channel files w).trace = w.trace ++ es ∧
        posts es = specPosts b channel files w := by
  intro files
  induction files with
  | nil =>
    intro w
    exact ⟨[], by simp [handleFileUploadFrom], by simp [posts, specPosts]⟩
  | cons file rest ih =>
    intro w
    obtain ⟨es1, ht1, hp1⟩ := handleFileUploadBody_posts b channel file w
    obtain ⟨es2, ht2, hp2⟩ := ih (handleFileUploadBody b channel file w)
    refine ⟨es1 ++ es2, ?_, ?_⟩
    · simp only [handleFileUploadFrom, ht2, ht1, List.append_assoc]
    · rw [posts_append, hp1, hp2]
      rfl

theorem specPosts_length (b : Bot) (channel : Str) :
    ∀ (files : List File) (w : World), (specPosts b channel files w).length = files.length := by
  intro files
  induction files with
  | nil => intro w; rfl
  | cons file rest ih => intro w; simp [specPosts, ih]

/-- C5, as amended: `handleFileUpload` posts exactly one channel message per file
reference, in the order of the references and to the channel of the event.  The message
for a file is decided by its own download, in the world its turn starts in: the error
`downloadFile` returns is the prefix of the step that failed first (metadata
resolution, download, file creation, write) followed by the text of the error that step
returned; when no step fails the message is the confirmation, which contains the
declared filename; otherwise it is `Error downloading file: ` followed by that prefix
and that error text, with no filename put into it. -/
theorem handleFileUpload_one_message_per_file (b : Bot) (ev : MessageEvent) (w : World) :
    posts (effectsSince w (handleFileUpload b ev w)) =
      specPosts b ev.Channel ev.Files w ∧
    (posts (effectsSince w (handleFileUpload b ev w))).length = ev.Files.length ∧
    (∀ (file : File) (w1 : World),
      posts (effectsSince w1 (handleFileUploadBody b ev.Channel file w1)) =
        [(ev.Channel, specMessage b file w1)] ∧
      (downloadFile b file w1).1 =
        (specFirstFailure b file w1).map (fun p => p.1 ++ p.2) ∧
      (specFirstFailure b file w1 = none →
        specMessage b file w1 = "File `".toList ++ file.Name ++
          "` has been successfully downloaded and saved.".toList ∧
        file.Name <:+: specMessage b file w1) ∧
      (∀ stage err, specFirstFailure b file w1 = some (stage, err) →
        stage ∈ failureStages ∧
        specMessage b file w1 = "Error downloading file: ".toList ++ (stage ++ err))) := by
  obtain ⟨es, ht, hp⟩ := handleFileUploadFrom_posts b ev.Channel ev.Files w
  have h : effectsSince w (handleFileUpload b ev w) = es :=
    effectsSince_of_trace w _ es ht
  refine ⟨by rw [h, hp], by rw [h, hp, specPosts_length], ?_⟩
  intro file w1
  obtain ⟨es1, ht1, hp1⟩ := handleFileUploadBody_posts b ev.Channel file w1
  refine ⟨by rw [effectsSince_of_trace w1 _ es1 ht1, hp1], downloadFile_error_eq b file w1,
    ?_, ?_⟩
  · intro hnone
    have hm : specMessage b file w1 = "File `".toList ++ file.Name ++
        "` has been successfully downloaded and saved.".toList := by
      simp only [specMessage, hnone]
    refine ⟨hm, ?_⟩
    rw [hm]
    exact ⟨"File `".toList, "` has been successfully downloaded and saved.".toList, rfl⟩
  · intro stage err hsome
    exact ⟨specFirstFailure_stage b file w1 stage err hsome, by
      simp only [specMessage, hsome]⟩

/-- A message with three files: `F1` is saved, the metadata of `F3` cannot be resolved,
the download of `F4` is refused. -/
theorem handleFileUpload_one_message_per_file_witness :
    posts (effectsSince emptyWorld (handleFileUpload sampleBot
      { User := "U2".toList, Channel := "C1".toList,
        Files := [{ ID := "F1".toList, Name := "report.pdf".toList },
          { ID := "F3".toList, Name := "broken.bin".toList },
          { ID := "F4".toList, Name := "notes.txt".toList }] } emptyWorld)) =
      [("C1".toList, "File `report.pdf` has been successfully downloaded and saved.".toList),
        ("C1".toList,
          "Error downloading file: error getting file info: file_not_found".toList),
        ("C1".toList,
          "Error downloading file: error downloading file: connection refused".toList)] :=
  (handleFileUpload_one_message_per_file sampleBot
    { User := "U2".toList, Channel := "C1".toList,
      Files := [{ ID := "F1".toList, Name := "report.pdf".toList },
        { ID := "F3".toList, Name := "broken.bin".toList },
        { ID := "F4".toList, Name := "notes.txt".toList }] } emptyWorld).1.trans (by decide)

/-- C5 as stated fails: when the metadata of `F3`, declared as `report.pdf`, cannot be
resolved, the one message posted does not contain `report.pdf`. -/
theorem handleFileUpload_failure_text_counterexample :
    posts (effectsSince emptyWorld (handleFileUpload sampleBot
      { User := "U2".toList, Channel := "C1".toList,
        Files := [{ ID := "F3".toList, Name := "report.pdf".toList }] } emptyWorld)) =
      [("C1".toList,
        "Error downloading file: error getting file info: file_not_found".toList)] ∧
    ¬ ("report.pdf".toList <:+:
      "Error downloading file: error getting file info: file_not_found".toList) := by
  decide

/-! ## One failing metadata resolution among the files of an event -/

theorem fsWrite_fsWrite (fs : List (Str × Bytes)) (filePath : Str) (d1 d2 : Bytes) :
    fsWrite (fsWrite fs filePath d1) filePath d2 = fsWrite fs filePath d2 := by
  simp [fsWrite, List.filter_append, List.filter_filter]

theorem fsWrite_keys (fs : List (Str × Bytes)) (filePath : Str) (data : Bytes)
    (h : filePath ∉ fs.map Prod.fst) :
    (fsWrite fs filePath data).map Prod.fst = fs.map Prod.fst ++ [filePath] := by
  have hf : fs.filter (fun entry => decide (entry.1 ≠ filePath)) = fs := by
    rw [List.filter_eq_self]
    intro x hx
    simp only [ne_eq, decide_not, Bool.not_eq_true', decide_eq_false_iff_not]
    intro hxe
    exact h (List.mem_map.mpr ⟨x, hx, hxe⟩)
  unfold fsWrite
  rw [hf]
  simp

theorem handleFileUploadFrom_append (b : Bot) (channel : Str) :
    ∀ (l1 l2 : List File) (w : World),
      handleFileUploadFrom b channel (l1 ++ l2) w =
        handleFileUploadFrom b channel l2 (handleFileUploadFrom b channel l1 w) := by
  intro l1
  induction l1 with
  | nil => intro l2 w; rfl
  | cons f l1 ih =>
    intro l2 w
    simp only [List.cons_append, handleFileUploadFrom]
    exact ih l2 _

theorem handleFileUploadBody_succeeds (b : Bot) (channel : Str) (file : File) (w : World)
    (h : Succeeds b file) :
    ∃ es body, (handleFileUploadBody b channel file w).trace = w.trace ++ es ∧
      posts es = [successPost channel file] ∧
      (handleFileUploadBody b channel file w).fs =
        fsWrite w.fs (destPath b.uploadDir file.Name) body := by
  obtain ⟨url, resp, hmeta, hget, hcreate, hcopy⟩ := h
  have hd := downloadFile_success b file w url resp (hmeta _) (hget _) (hcreate _) (hcopy _)
  have hb : handleFileUploadBody b channel file w =
      { fs := fsWrite w.fs (destPath b.uploadDir file.Name) resp.Body,
        trace := w.trace ++ [.GetFileInfo file.ID, .HttpGet url,
          .Create (destPath b.uploadDir file.Name),
          .Write (destPath b.uploadDir file.Name) resp.Body,
          .Log (.FileDownloaded (destPath b.uploadDir file.Name)),
          .CloseFile (destPath b.uploadDir file.Name), .CloseBody url,
          .PostMessage channel (successText file.Name)] } := by
    unfold handleFileUploadBody
    rw [hd]
    simp only [World.emit, List.append_assoc, List.singleton_append, List.cons_append,
      List.nil_append, fsWrite_fsWrite]
  rw [hb]
  exact ⟨_, resp.Body, rfl, by simp [posts, successPost], rfl⟩

theorem handleFileUploadBody_lookup_fails (b : Bot) (channel : Str) (file : File) (w : World)
    (err : Str) (h : ∀ w1, b.client.GetFileInfo w1 file.ID = .error err) :
    handleFileUploadBody b channel file w =
      { fs := w.fs,
        trace := w.trace ++ [.GetFileInfo file.ID,
          .Log (.ErrorDownloadingFile ("error getting file info: ".toList ++ err)),
          .PostMessage channel (failureText ("error getting file info: ".toList ++ err))] } := by
  unfold handleFileUploadBody
  rw [downloadFile_lookup_error b file w err (h _)]
  simp only [World.emit, List.append_assoc, List.singleton_append, List.cons_append,
    List.nil_append]

/-- When every file of the list succeeds, the loop posts the confirmations in order,
and if the destinations are new and pairwise distinct it adds one file per reference. -/
theorem handleFileUploadFrom_all_succeed (b : Bot) (channel : Str) :
    ∀ (files : List File) (w : World), (∀ f ∈ files, Succeeds b f) →
      ∃ es, (handleFileUploadFrom b channel files w).trace = w.trace ++ es ∧
        posts es = files.map (successPost channel) ∧
        ((files.map (fun f => destPath b.uploadDir f.Name)).Nodup →
          (∀ f ∈ files, destPath b.uploadDir f.Name ∉ w.fs.map Prod.fst) →
          (handleFileUploadFrom b channel files w).fs.map Prod.fst =
            w.fs.map Prod.fst ++ files.map (fun f => destPath b.uploadDir f.Name)) := by
  intro files
  induction files with
  | nil =>
    intro w _
    exact ⟨[], by simp [handleFileUploadFrom], by simp [posts], by
      intro _ _; simp [handleFileUploadFrom]⟩
  | cons file rest ih =>
    intro w hok
    obtain ⟨es1, body, ht1, hp1, hfs1⟩ :=
      handleFileUploadBody_succeeds b channel file w (hok file (by simp))
    obtain ⟨es2, ht2, hp2, hfs2⟩ := ih (handleFileUploadBody b channel file w)
      (fun f hf => hok f (by simp [hf]))
    refine ⟨es1 ++ es2, ?_, ?_, ?_⟩
    · simp only [handleFileUploadFrom, ht2, ht1, List.append_assoc]
    · rw [posts_append, hp1, hp2]
      rfl
    · intro hnd hnew
      simp only [List.map_cons, List.nodup_cons] at hnd
      have hk : (handleFileUploadBody b channel file w).fs.map Prod.fst =
          w.fs.map Prod.fst ++ [destPath b.uploadDir file.Name] := by
        rw [hfs1]
        exact fsWrite_keys _ _ _ (hnew file (by simp))
      simp only [handleFileUploadFrom]
      rw [hfs2 hnd.2 ?_, hk]
      · simp
      · intro f hf
        rw [hk]
        simp only [List.mem_append, List.mem_singleton, not_or]
        refine ⟨hnew f (by simp [hf]), ?_⟩
        intro heq
        exact hnd.1 (List.mem_map.mpr ⟨f, hf, heq⟩)

/-- C4, as amended: when the metadata of exactly one file reference `fk` of an event
cannot be resolved and every step succeeds for every other reference, `handleFileUpload`
posts exactly one message per reference, in the order of the references: the
confirmation for each of the others and one failure message for `fk`.  If moreover no
file was on disk beforehand and the destinations of the other references are pairwise
distinct, the files on disk afterwards are exactly those destinations, one file less
than there are references. -/
theorem handleFileUpload_one_lookup_failure (b : Bot) (ev : MessageEvent)
    (pre post : List File) (fk : File) (w : World) (err : Str)
    (hfiles : ev.Files = pre ++ fk :: post)
    (hfail : ∀ w1, b.client.GetFileInfo w1 fk.ID = .error err)
    (hok : ∀ f ∈ pre ++ post, Succeeds b f) :
    posts (effectsSince w (handleFileUpload b ev w)) =
      pre.map (successPost ev.Channel) ++
        (ev.Channel, failureText ("error getting file info: ".toList ++ err)) ::
          post.map (successPost ev.Channel) ∧
    (posts (effectsSince w (handleFileUpload b ev w))).length = ev.Files.length ∧
    (w.fs = [] → ((pre ++ post).map (fun f => destPath b.uploadDir f.Name)).Nodup →
      (handleFileUpload b ev w).fs.map Prod.fst =
          (pre ++ post).map (fun f => destPath b.uploadDir f.Name) ∧
        (handleFileUpload b ev w).fs.length = ev.Files.length - 1) := by
  obtain ⟨es1, ht1, hp1, hfs1⟩ := handleFileUploadFrom_all_succeed b ev.Channel pre w
    (fun f hf => hok f (by simp [hf]))
  have hb := handleFileUploadBody_lookup_fails b ev.Channel fk
    (handleFileUploadFrom b ev.Channel pre w) err hfail
  obtain ⟨es3, ht3, hp3, hfs3⟩ := handleFileUploadFrom_all_succeed b ev.Channel post
    (handleFileUploadBody b ev.Channel fk (handleFileUploadFrom b ev.Channel pre w))
    (fun f hf => hok f (by simp [hf]))
  have hrun : handleFileUpload b ev w =
      handleFileUploadFrom b ev.Channel post
        (handleFileUploadBody b ev.Channel fk (handleFileUploadFrom b ev.Channel pre w)) := by
    simp only [handleFileUpload, hfiles, handleFileUploadFrom_append, handleFileUploadFrom]
  have htrace : (handleFileUpload b ev w).trace = w.trace ++ (es1 ++
      ([.GetFileInfo fk.ID,
        .Log (.ErrorDownloadingFile ("error getting file info: ".toList ++ err)),
        .PostMessage ev.Channel (failureText ("error getting file info: ".toList ++ err))] ++
        es3)) := by
    rw [hrun, ht3, hb]
    simp only [ht1, List.append_assoc]
  have hposts : posts (effectsSince w (handleFileUpload b ev w)) =
      pre.map (successPost ev.Channel) ++
        (ev.Channel, failureText ("error getting file info: ".toList ++ err)) ::
          post.map (successPost ev.Channel) := by
    rw [effectsSince_of_trace w _ _ htrace, posts_append, posts_append, hp1, hp3]
    simp [posts]
  refine ⟨hposts, ?_, ?_⟩
  · rw [hposts, hfiles]
    simp
  · intro hempty hnd
    rw [List.map_append, List.nodup_append] at hnd
    obtain ⟨hnd1, hnd2, hdisj⟩ := hnd
    have hk1 := hfs1 hnd1 (by intro f _; simp [hempty])
    simp only [hempty, List.map_nil, List.nil_append] at hk1
    have hk2 : (handleFileUploadBody b ev.Channel fk
        (handleFileUploadFrom b ev.Channel pre w)).fs.map Prod.fst =
        pre.map (fun f => destPath b.uploadDir f.Name) := by
      rw [hb]
      exact hk1
    have hk3 := hfs3 hnd2 (by
      intro f hf hmem
      rw [hk2] at hmem
      exact hdisj hmem (List.mem_map.mpr ⟨f, hf, rfl⟩))
    rw [hk2] at hk3
    have hkeys : (handleFileUpload b ev w).fs.map Prod.fst =
        (pre ++ post).map (fun f => destPath b.uploadDir f.Name) := by
      rw [hrun, hk3, List.map_append]
    refine ⟨hkeys, ?_⟩
    have hlen := congrArg List.length hkeys
    simp only [List.length_map, List.length_append] at hlen
    rw [hlen, hfiles]
    simp

/-- Three files in one message; the metadata of the second, `F3`, cannot be resolved. -/
theorem handleFileUpload_one_lookup_failure_witness :
    posts (effectsSince emptyWorld (handleFileUpload sampleBot
      { User := "U2".toList, Channel := "C1".toList,
        Files := [{ ID := "F1".toList, Name := "report.pdf".toList },
          { ID := "F3".toList, Name := "broken.bin".toList },
          { ID := "F2".toList, Name := "notes.txt".toList }] } emptyWorld)) =
      [("C1".toList, "File `report.pdf` has been successfully downloaded and saved.".toList),
        ("C1".toList,
          "Error downloading file: error getting file info: file_not_found".toList),
        ("C1".toList, "File `notes.txt` has been successfully downloaded and saved.".toList)] ∧
    (handleFileUpload sampleBot
      { User := "U2".toList, Channel := "C1".toList,
        Files := [{ ID := "F1".toList, Name := "report.pdf".toList },
          { ID := "F3".toList, Name := "broken.bin".toList },
          { ID := "F2".toList, Name := "notes.txt".toList }] } emptyWorld).fs.map Prod.fst =
      ["uploads/report.pdf".toList, "uploads/notes.txt".toList] := by
  have h := handleFileUpload_one_lookup_failure sampleBot
    { User := "U2".toList, Channel := "C1".toList,
      Files := [{ ID := "F1".toList, Name := "report.pdf".toList },
        { ID := "F3".toList, Name := "broken.bin".toList },
        { ID := "F2".toList, Name := "notes.txt".toList }] }
    [{ ID := "F1".toList, Name := "report.pdf".toList }]
    [{ ID := "F2".toList, Name := "notes.txt".toList }]
    { ID := "F3".toList, Name := "broken.bin".toList } emptyWorld "file_not_found".toList
    rfl (fun _ => rfl) (by
      intro f hf
      simp only [List.singleton_append, List.mem_cons, List.mem_singleton, List.not_mem_nil,
        or_false] at hf
      rcases hf with rfl | rfl
      · exact ⟨"https://files.example/F1".toList, { StatusCode := 200, Body := [80, 68, 70] },
          fun _ => rfl, fun _ => rfl, fun _ => rfl, fun _ => rfl⟩
      · exact ⟨"https://files.example/F2".toList, { StatusCode := 200, Body := [80, 68, 70] },
          fun _ => rfl, fun _ => rfl, fun _ => rfl, fun _ => rfl⟩)
  exact ⟨h.1, (h.2.2 rfl (by decide)).1⟩

/-- C4 as stated fails: `F1` and `F2` are both declared as `a.txt` and both succeed,
`F3` fails metadata resolution; three messages are posted but a single file is on disk
afterwards, not two. -/
theorem handleFileUpload_name_collision_counterexample :
    (∀ w1, sampleBot.client.GetFileInfo w1 "F3".toList = .error "file_not_found".toList) ∧
    Succeeds sampleBot { ID := "F1".toList, Name := "a.txt".toList } ∧
    Succeeds sampleBot { ID := "F2".toList, Name := "a.txt".toList } ∧
    (posts (effectsSince emptyWorld (handleFileUpload sampleBot
      { User := "U2".toList, Channel := "C1".toList,
        Files := [{ ID := "F1".toList, Name := "a.txt".toList },
          { ID := "F2".toList, Name := "a.txt".toList },
          { ID := "F3".toList, Name := "b.txt".toList }] } emptyWorld))).length = 3 ∧
    (handleFileUpload sampleBot
      { User := "U2".toList, Channel := "C1".toList,
        Files := [{ ID := "F1".toList, Name := "a.txt".toList },
          { ID := "F2".toList, Name := "a.txt".toList },
          { ID := "F3".toList, Name := "b.txt".toList }] } emptyWorld).fs =
      [("uploads/a.txt".toList, [80, 68, 70])] ∧
    (handleFileUpload sampleBot
      { User := "U2".toList, Channel := "C1".toList,
        Files := [{ ID := "F1".toList, Name := "a.txt".toList },
          { ID := "F2".toList, Name := "a.txt".toList },
          { ID := "F3".toList, Name := "b.txt".toList }] } emptyWorld).fs.length ≠ 3 - 1 :=
  ⟨fun _ => rfl,
    ⟨"https://files.example/F1".toList, { StatusCode := 200, Body := [80, 68, 70] },
      fun _ => rfl, fun _ => rfl, fun _ => rfl, fun _ => rfl⟩,
    ⟨"https://files.example/F2".toList, { StatusCode := 200, Body := [80, 68, 70] },
      fun _ => rfl, fun _ => rfl, fun _ => rfl, fun _ => rfl⟩,
    by decide, by decide, by decide⟩

end Slackbot
